import Mathlib

set_option linter.unusedVariables false

/-!
Verification of the Jubarte spaced-repetition study tracker.

The development shallowly embeds the core modules of the repository:

* `src/jubarte/core/scheduler.py` — fixed-horizon scheduler (`SimpleSpacedScheduler`);
* `src/jubarte/models.py` — `StudyItem` / `ReviewItem` and their dict (de)serialization;
* `src/jubarte/export/ics_exporter.py` — the ICS exporter (escaping, folding,
  timestamp formatting, sorting, atomic write);
* `src/jubarte/storage/memory_store.py` — the in-memory store.

Time is modelled at two levels of abstraction, matching what each claim is about:
scheduler arithmetic uses UTC epoch seconds (`ℤ`), while (de)serialization and
timestamp rendering use a calendar-component structure (`DateTime`).
Python strings are modelled as `List Char`.
-/

/-! ## Scheduler (src/jubarte/core/scheduler.py), time as UTC epoch seconds -/

/-- `StudyItem` of `src/jubarte/models.py`, as consumed by the scheduler;
`created_at` is modelled as UTC epoch seconds. -/
structure StudyItemZ where
  id : List Char
  title : List Char
  notes : List Char
  created_at : ℤ
deriving DecidableEq, Repr

/-- `ReviewItem` of `src/jubarte/models.py`, as produced by the scheduler;
`review_date` is modelled as UTC epoch seconds. -/
structure ReviewItemZ where
  item_id : List Char
  review_date : ℤ
deriving DecidableEq, Repr

/-- `SimpleSpacedScheduler.BASE_INTERVALS` (day offsets). -/
def BASE_INTERVALS : List ℤ := [1, 3, 7, 14, 30, 60, 120, 240, 360, 720]

/-- `datetime.timedelta(days=1)` in seconds. -/
def secondsPerDay : ℤ := 86400

/-- `SimpleSpacedScheduler.generate_initial`. `now` is the value of
`datetime.now(timezone.utc)` sampled at the call, as epoch seconds; the loop
over `BASE_INTERVALS` appending `ReviewItem(item_id=item.id, review_date=now +
timedelta(days=days))` is the map below. -/
def generate_initial (now : ℤ) (item : StudyItemZ) : List ReviewItemZ :=
  BASE_INTERVALS.map (fun days => { item_id := item.id, review_date := now + days * secondsPerDay })

/-! ## In-memory store (src/jubarte/storage/memory_store.py)

Python `dict` is modelled as an insertion-ordered association list with unique
keys: assignment `d[k] = v` replaces the value in place when `k` is present and
appends otherwise; `d.get(k)` returns the first (hence only) binding. -/

/-- `d[k] = v` on a Python dict modelled as an association list. -/
def dictInsert {α : Type} : List (List Char × α) → List Char → α → List (List Char × α)
  | [], k, v => [(k, v)]
  | (k', v') :: rest, k, v =>
      if k' = k then (k, v) :: rest else (k', v') :: dictInsert rest k v

/-- `d.get(k)` on a Python dict modelled as an association list. -/
def dictGet {α : Type} : List (List Char × α) → List Char → Option α
  | [], _ => none
  | (k', v') :: rest, k => if k' = k then some v' else dictGet rest k

/-- `MemoryStore`: `_items` maps study item ids to `StudyItem`s and `_reviews`
maps study item ids to `ReviewItem`s. -/
structure MemoryStore where
  _items : List (List Char × StudyItemZ)
  _reviews : List (List Char × ReviewItemZ)
deriving DecidableEq, Repr

/-- `MemoryStore.__init__`: both dicts start empty. -/
def MemoryStore.init : MemoryStore := ⟨[], []⟩

/-- `MemoryStore.save_item`: `self._items[item.id] = item`. -/
def MemoryStore.save_item (st : MemoryStore) (item : StudyItemZ) : MemoryStore :=
  { st with _items := dictInsert st._items item.id item }

/-- `MemoryStore.save_review`: `self._reviews[review.item_id] = review`. -/
def MemoryStore.save_review (st : MemoryStore) (review : ReviewItemZ) : MemoryStore :=
  { st with _reviews := dictInsert st._reviews review.item_id review }

/-- `MemoryStore.load_reviews`: `list(self._reviews.values())`. -/
def MemoryStore.load_reviews (st : MemoryStore) : List ReviewItemZ :=
  st._reviews.map Prod.snd

/-- `MemoryStore.load_review_for_item`: `self._reviews.get(item_id)`. -/
def MemoryStore.load_review_for_item (st : MemoryStore) (item_id : List Char) :
    Option ReviewItemZ :=
  dictGet st._reviews item_id

/-- The `_reviews` dict of a reachable `MemoryStore`: keys are unique (a dict
invariant) and every stored review sits under its own `item_id` (an invariant
established by `save_review`, which always keys by `review.item_id`). -/
def MemoryStore.reviewsWF (st : MemoryStore) : Prop :=
  (st._reviews.map Prod.fst).Nodup ∧ ∀ p ∈ st._reviews, p.2.item_id = p.1

instance (st : MemoryStore) : Decidable st.reviewsWF := by
  unfold MemoryStore.reviewsWF; infer_instance

/-! ## Adaptive scheduler variant (modelled from the spec)

`src/tests/test_scheduler.py` exercises `Scheduler.update` and per-item
`ReviewEntry` records (`entry.interval_days`, `sched.update(entry, "good")`),
but no implementation of the adaptive variant is present under `src/`; the
abstract `Scheduler` base class in `src/jubarte/core/scheduler.py` declares
only `generate_initial`. The definitions below are therefore modelled from the
spec (§4.1, adaptive mode), not from source code. Python floats are modelled
as exact rationals. -/

/-- Modelled from the spec: one of the four outcome labels accepted by
`update` (any other label fails with `InvalidResult`, so the recognized labels
form an enumeration). -/
inductive ReviewResult where
  | again
  | hard
  | good
  | easy
deriving DecidableEq, Repr

/-- Modelled from the spec: the adaptive, per-item `ReviewEntry` record with
`interval_days`, `ease`, `repetitions`, `next_review` (epoch seconds) and an
outcome `history`. -/
structure ReviewEntry where
  item_id : List Char
  interval_days : ℤ
  ease : ℚ
  repetitions : ℕ
  next_review : ℤ
  history : List (ℤ × ReviewResult)
deriving DecidableEq, Repr

/-- Modelled from the spec: the multiplicative factor per outcome label
(again=1, hard=1.2, good=2, easy=3). -/
def resultFactor : ReviewResult → ℚ
  | .again => 1
  | .hard => 12 / 10
  | .good => 2
  | .easy => 3

/-- Python's built-in `round`: nearest integer, ties to the even integer. -/
def pyRound (q : ℚ) : ℤ :=
  if q - ⌊q⌋ < 1 / 2 then ⌊q⌋
  else if 1 / 2 < q - ⌊q⌋ then ⌊q⌋ + 1
  else if 2 ∣ ⌊q⌋ then ⌊q⌋ else ⌊q⌋ + 1

/-- Modelled from the spec: the ease adjustment of `update`
(easy → `min(4.5, ease + 0.15)`, again → `max(1.3, ease - 0.2)`,
hard/good → unchanged). -/
def updateEase : ReviewResult → ℚ → ℚ
  | .easy, e => min (45 / 10) (e + 15 / 100)
  | .again, e => max (13 / 10) (e - 2 / 10)
  | .hard, e => e
  | .good, e => e

/-- Modelled from the spec: `Scheduler.update(record, result)`. New interval =
`max(1, round(old_interval * factor))`; `repetitions` increments;
`next_review = now + new_interval` days; history gains `{when: now, result}`. -/
def update (now : ℤ) (rec : ReviewEntry) (res : ReviewResult) : ReviewEntry :=
  let newInterval : ℤ := max 1 (pyRound ((rec.interval_days : ℚ) * resultFactor res))
  { rec with
    interval_days := newInterval
    ease := updateEase res rec.ease
    repetitions := rec.repetitions + 1
    next_review := now + newInterval * secondsPerDay
    history := rec.history ++ [(now, res)] }

/-! ## Calendar datetimes (src/jubarte/models.py serialization)

`datetime` objects are modelled by their calendar components plus an optional
fixed UTC offset in minutes (`none` = naive, `some 0` = `timezone.utc`).
`isoformat` renders `YYYY-MM-DDTHH:MM:SS[.ffffff][±HH:MM]` exactly as
`datetime.isoformat()` does for offsets of whole minutes; `fromisoformat`
parses that grammar (plus the `Z` suffix accepted by `datetime.fromisoformat`),
failing with `None` (Python: raising `ValueError`) on anything else. -/

/-- One decimal digit of `n` (its units digit), as `%d` renders it. -/
def digitChar (n : ℕ) : Char := Char.ofNat (48 + n % 10)

/-- `%02d`. -/
def pad2 (n : ℕ) : List Char := [digitChar (n / 10), digitChar n]

/-- `%04d`. -/
def pad4 (n : ℕ) : List Char :=
  [digitChar (n / 1000), digitChar (n / 100), digitChar (n / 10), digitChar n]

/-- `%06d`. -/
def pad6 (n : ℕ) : List Char :=
  [digitChar (n / 100000), digitChar (n / 10000), digitChar (n / 1000),
    digitChar (n / 100), digitChar (n / 10), digitChar n]

/-- A `datetime.datetime` by components; `tzoffMinutes` is the UTC offset of
its `tzinfo` in minutes (`none` for naive datetimes). -/
structure DateTime where
  year : ℕ
  month : ℕ
  day : ℕ
  hour : ℕ
  minute : ℕ
  second : ℕ
  microsecond : ℕ
  tzoffMinutes : Option ℤ
deriving DecidableEq, Repr

/-- `datetime.isoformat()`: microseconds are printed (as 6 digits) only when
nonzero, and the offset is printed as `±HH:MM` only for aware datetimes. -/
def isoformat (dt : DateTime) : List Char :=
  pad4 dt.year ++ '-' :: pad2 dt.month ++ '-' :: pad2 dt.day ++
    'T' :: pad2 dt.hour ++ ':' :: pad2 dt.minute ++ ':' :: pad2 dt.second ++
    (if dt.microsecond = 0 then [] else '.' :: pad6 dt.microsecond) ++
    (match dt.tzoffMinutes with
     | none => []
     | some m =>
         (if m < 0 then '-' else '+') ::
           (pad2 (m.natAbs / 60) ++ ':' :: pad2 (m.natAbs % 60)))

/-- Decimal digit value of a character, if it is a digit. -/
def parseDigit (c : Char) : Option ℕ :=
  if '0' ≤ c ∧ c ≤ '9' then some (c.toNat - 48) else none

/-- Two mandatory digits. -/
def parse2 : List Char → Option (ℕ × List Char)
  | a :: b :: rest => do
      let x ← parseDigit a
      let y ← parseDigit b
      some (10 * x + y, rest)
  | _ => none

/-- Four mandatory digits. -/
def parse4 : List Char → Option (ℕ × List Char)
  | a :: b :: c :: d :: rest => do
      let x ← parseDigit a
      let y ← parseDigit b
      let z ← parseDigit c
      let w ← parseDigit d
      some (1000 * x + 100 * y + 10 * z + w, rest)
  | _ => none

/-- Six mandatory digits. -/
def parse6 : List Char → Option (ℕ × List Char)
  | a :: b :: c :: d :: e :: f :: rest => do
      let u ← parseDigit a
      let v ← parseDigit b
      let w ← parseDigit c
      let x ← parseDigit d
      let y ← parseDigit e
      let z ← parseDigit f
      some (100000 * u + 10000 * v + 1000 * w + 100 * x + 10 * y + z, rest)
  | _ => none

/-- A mandatory literal character. -/
def expectChar (c : Char) : List Char → Option (List Char)
  | [] => none
  | x :: rest => if x = c then some rest else none

/-- The optional trailing timezone of an ISO string: empty (naive), `Z`, or
`±HH:MM`. -/
def parseTz : List Char → Option (Option ℤ × List Char)
  | [] => some (none, [])
  | c :: rest =>
      if c = 'Z' then some (some 0, rest)
      else if c = '+' ∨ c = '-' then do
        let p1 ← parse2 rest
        let r2 ← expectChar ':' p1.2
        let p2 ← parse2 r2
        let m : ℤ := p1.1 * 60 + p2.1
        some (some (if c = '-' then -m else m), p2.2)
      else none

/-- The `YYYY-MM-DD` date prefix of an ISO string. -/
def parseYMD (s : List Char) : Option ((ℕ × ℕ × ℕ) × List Char) := do
  let py ← parse4 s
  let s2 ← expectChar '-' py.2
  let pmo ← parse2 s2
  let s4 ← expectChar '-' pmo.2
  let pd ← parse2 s4
  some ((py.1, pmo.1, pd.1), pd.2)

/-- The `HH:MM:SS` time block of an ISO string. -/
def parseHMS (s : List Char) : Option ((ℕ × ℕ × ℕ) × List Char) := do
  let ph ← parse2 s
  let s2 ← expectChar ':' ph.2
  let pmi ← parse2 s2
  let s4 ← expectChar ':' pmi.2
  let ps ← parse2 s4
  some ((ph.1, pmi.1, ps.1), ps.2)

/-- The optional `.ffffff` fractional-seconds block of an ISO string. -/
def parseMicro : List Char → Option (ℕ × List Char)
  | '.' :: rest => parse6 rest
  | other => some (0, other)

/-- `datetime.fromisoformat` on the grammar produced by
`datetime.isoformat`. -/
def fromisoformat (s : List Char) : Option DateTime := do
  let pymd ← parseYMD s
  let s2 ← expectChar 'T' pymd.2
  let phms ← parseHMS s2
  let pmic ← parseMicro phms.2
  let ptz ← parseTz pmic.2
  if ptz.2 = [] then
    some ⟨pymd.1.1, pymd.1.2.1, pymd.1.2.2, phms.1.1, phms.1.2.1, phms.1.2.2, pmic.1, ptz.1⟩
  else none

/-- Validity of an offset: Python's `timezone` accepts strict sub-day offsets,
and `isoformat`/`fromisoformat` handle whole minutes. -/
def tzoffValid : Option ℤ → Prop
  | none => True
  | some m => m.natAbs ≤ 1439

instance tzoffValidDec : (o : Option ℤ) → Decidable (tzoffValid o)
  | none => Decidable.isTrue trivial
  | some m => inferInstanceAs (Decidable (m.natAbs ≤ 1439))

/-- The component ranges `datetime.datetime` itself enforces. -/
def DateTime.valid (dt : DateTime) : Prop :=
  1 ≤ dt.year ∧ dt.year ≤ 9999 ∧ 1 ≤ dt.month ∧ dt.month ≤ 12 ∧
  1 ≤ dt.day ∧ dt.day ≤ 31 ∧ dt.hour ≤ 23 ∧ dt.minute ≤ 59 ∧
  dt.second ≤ 59 ∧ dt.microsecond < 1000000 ∧ tzoffValid dt.tzoffMinutes

instance (dt : DateTime) : Decidable dt.valid := by
  unfold DateTime.valid; infer_instance

/-- `StudyItem` of `src/jubarte/models.py` (component-datetime view used by
serialization). -/
structure StudyItem where
  id : List Char
  title : List Char
  notes : List Char
  created_at : DateTime
deriving DecidableEq, Repr

/-- The dict produced by `StudyItem.to_dict`: all four keys present,
`created_at` an ISO 8601 string. -/
structure StudyItemDict where
  id : List Char
  title : List Char
  notes : List Char
  created_at : List Char
deriving DecidableEq, Repr

/-- `StudyItem.to_dict`. -/
def StudyItem.to_dict (x : StudyItem) : StudyItemDict :=
  { id := x.id, title := x.title, notes := x.notes, created_at := isoformat x.created_at }

/-- `StudyItem.from_dict`: `datetime.fromisoformat` may fail (raise), hence
`Option`. `notes` uses `d.get("notes", "")`, which on a dict produced by
`to_dict` is the stored field. -/
def StudyItem.from_dict (d : StudyItemDict) : Option StudyItem :=
  (fromisoformat d.created_at).map fun ts =>
    { id := d.id, title := d.title, notes := d.notes, created_at := ts }

/-- `ReviewItem` of `src/jubarte/models.py` (component-datetime view used by
serialization). -/
structure ReviewItem where
  item_id : List Char
  review_date : DateTime
deriving DecidableEq, Repr

/-- The dict produced by `ReviewItem.to_dict`. -/
structure ReviewItemDict where
  item_id : List Char
  review_date : List Char
deriving DecidableEq, Repr

/-- `ReviewItem.to_dict`. -/
def ReviewItem.to_dict (r : ReviewItem) : ReviewItemDict :=
  { item_id := r.item_id, review_date := isoformat r.review_date }

/-- `ReviewItem.from_dict`. -/
def ReviewItem.from_dict (d : ReviewItemDict) : Option ReviewItem :=
  (fromisoformat d.review_date).map fun ts =>
    { item_id := d.item_id, review_date := ts }

/-! ## ICS exporter (src/jubarte/export/ics_exporter.py): text escaping -/

/-- Python's `str.replace(old, new)`: scan left to right, replacing
non-overlapping occurrences of `pat`, resuming after each replacement. Only
nonempty patterns are modelled faithfully (every use in the source has a
nonempty pattern). -/
def pyReplace (pat rep : List Char) : List Char → List Char
  | [] => []
  | c :: rest =>
    if pat ≠ [] ∧ pat.isPrefixOf (c :: rest) then
      rep ++ pyReplace pat rep (List.drop (pat.length - 1) rest)
    else
      c :: pyReplace pat rep rest
termination_by s => s.length
decreasing_by
  · simp only [List.length_drop, List.length_cons]
    omega
  · simp only [List.length_cons]
    omega

/-- `ICSExporter._escape`, the six sequential `str.replace` passes of the
source (backslash doubling; CRLF and CR normalization to LF; LF, comma and
semicolon escaping). The source also coerces `None`/non-strings via `str()`,
which is outside the string model. -/
def escape (s : List Char) : List Char :=
  pyReplace [';'] ['\\', ';']
    (pyReplace [','] ['\\', ',']
      (pyReplace ['\n'] ['\\', 'n']
        (pyReplace ['\r'] ['\n']
          (pyReplace ['\r', '\n'] ['\n']
            (pyReplace ['\\'] ['\\', '\\'] s)))))

/-- Per-character escaping as the spec words it: backslash → double backslash,
any newline variant → literal backslash-n, comma and semicolon → escaped. -/
def escChar (c : Char) : List Char :=
  if c = '\\' then ['\\', '\\']
  else if c = '\r' ∨ c = '\n' then ['\\', 'n']
  else if c = ',' then ['\\', ',']
  else if c = ';' then ['\\', ';']
  else [c]

/-- One-pass specification of the escaping: CRLF collapses to a single
backslash-n, every other character escapes independently via `escChar`. -/
def escapeSpec : List Char → List Char
  | [] => []
  | '\r' :: '\n' :: rest => '\\' :: 'n' :: escapeSpec rest
  | c :: rest => escChar c ++ escapeSpec rest

/-- Mapping a character-to-string function over a string (the shape of a
single-character `str.replace` pass). -/
def mapRep (f : Char → List Char) : List Char → List Char
  | [] => []
  | c :: s => f c ++ mapRep f s

/-- The combined effect of the last four single-character passes
(CR → LF, LF → backslash-n, comma, semicolon). -/
def e346 (c : Char) : List Char :=
  if c = '\r' ∨ c = '\n' then ['\\', 'n']
  else if c = ',' then ['\\', ',']
  else if c = ';' then ['\\', ';']
  else [c]

/-! ## ICS exporter: line folding -/

/-- The chunks `[line[i : i + 75] for i in range(0, len(line), 75)]` of
`ICSExporter._fold` at the default `limit = 75`. -/
def chunks75 : List Char → List (List Char)
  | [] => []
  | c :: rest => (c :: rest).take 75 :: chunks75 (rest.drop 74)
termination_by l => l.length
decreasing_by
  simp only [List.length_drop, List.length_cons]
  omega

/-- `ICSExporter._fold` with its default `limit = 75`: short lines pass
through; longer lines are split into 75-character chunks joined by
CRLF-and-one-space. -/
def fold (line : List Char) : List Char :=
  if line.length ≤ 75 then line
  else List.intercalate ['\r', '\n', ' '] (chunks75 line)

/-! ## ICS exporter: document assembly and atomic write -/

/-- An encoding of a datetime's components into one natural number, strictly
monotone in chronological order on the component ranges `datetime` enforces;
all datetimes passing through this exporter are UTC-aware, so Python's
datetime comparison coincides with this componentwise order. -/
def dtKey (d : DateTime) : ℕ :=
  (((((d.year * 13 + d.month) * 32 + d.day) * 24 + d.hour) * 60 + d.minute) * 60 + d.second)
    * 1000000 + d.microsecond

/-- `models.ReviewItem` as the exporter consumes it: `review_date` is `Option`
to express the missing-date case `_format_dt` guards against. -/
structure ReviewItemN where
  item_id : List Char
  review_date : Option DateTime
deriving DecidableEq, Repr

/-- The Python exceptions the export path can raise while building the
document. -/
inductive PyErr where
  | valueError
  | typeError
deriving DecidableEq, Repr

/-- The sort key `lambda x: getattr(x, "review_date", datetime.min)` (the
attribute always exists), encoded through `dtKey`; the `none` value never
reaches an executed comparison. -/
def reviewKey (r : ReviewItemN) : ℕ :=
  match r.review_date with
  | some d => dtKey d
  | none => 0

/-- `sorted(reviews, key=...)`: a stable sort by scheduled date. CPython's
sort compares adjacent keys during run detection, and comparing a `None` key
with anything raises `TypeError`; with fewer than two elements no comparison
is made. -/
def pySortedReviews (rs : List ReviewItemN) : Except PyErr (List ReviewItemN) :=
  if 2 ≤ rs.length ∧ rs.any (fun r => r.review_date.isNone) then Except.error PyErr.typeError
  else Except.ok (List.insertionSort (fun a b => reviewKey a ≤ reviewKey b) rs)

/-- `_format_dt` on a present (UTC) datetime: `%Y%m%dT%H%M%SZ`. -/
def format_dt (d : DateTime) : List Char :=
  pad4 d.year ++ pad2 d.month ++ pad2 d.day ++ 'T' :: pad2 d.hour ++ pad2 d.minute ++
    pad2 d.second ++ ['Z']

/-- `_format_dt` with its guard: a missing datetime raises `ValueError`. -/
def format_dtOpt : Option DateTime → Except PyErr (List Char)
  | none => Except.error PyErr.valueError
  | some d => Except.ok (format_dt d)

/-- One VEVENT block for review `r`; `uid` is the freshly drawn `uuid4()`
rendering for this record. -/
def eventBlock (exportTime : DateTime) (uid : List Char)
    (items : List (List Char × StudyItem)) (r : ReviewItemN) :
    Except PyErr (List (List Char)) :=
  match format_dtOpt r.review_date with
  | Except.error e => Except.error e
  | Except.ok dtstart =>
    let item := dictGet items r.item_id
    let uidStr := r.item_id ++ '-' :: (uid ++ "@jubarte".toList)
    let summary := "Review: ".toList ++ (match item with
      | some it => it.title
      | none => r.item_id)
    let description := match item with
      | some it => it.notes
      | none => []
    Except.ok ["BEGIN:VEVENT".toList,
      fold ("UID:".toList ++ escape uidStr),
      fold ("DTSTAMP:".toList ++ format_dt exportTime),
      fold ("DTSTART:".toList ++ dtstart),
      fold ("SUMMARY:".toList ++ escape summary),
      fold ("DESCRIPTION:".toList ++ escape description),
      "END:VEVENT".toList]

/-- The exporter's loop over the sorted reviews, threading the stream of
freshly generated uuids by position. -/
def buildEvents (t : DateTime) (uuids : ℕ → List Char)
    (items : List (List Char × StudyItem)) :
    ℕ → List ReviewItemN → Except PyErr (List (List Char))
  | _, [] => Except.ok []
  | i, r :: rs =>
    match eventBlock t (uuids i) items r with
    | Except.error e => Except.error e
    | Except.ok b =>
      match buildEvents t uuids items (i + 1) rs with
      | Except.error e => Except.error e
      | Except.ok rest => Except.ok (b ++ rest)

/-- The fixed container header lines. -/
def calHeader : List (List Char) :=
  ["BEGIN:VCALENDAR".toList, "VERSION:2.0".toList, "PRODID:-//jubarte//EN".toList]

/-- The full document as a list of (possibly folded) content lines. -/
def buildLines (t : DateTime) (uuids : ℕ → List Char) (reviews : List ReviewItemN)
    (items : List (List Char × StudyItem)) : Except PyErr (List (List Char)) :=
  match pySortedReviews reviews with
  | Except.error e => Except.error e
  | Except.ok sortedRs =>
    match buildEvents t uuids items 0 sortedRs with
    | Except.error e => Except.error e
    | Except.ok evs => Except.ok (calHeader ++ evs ++ ["END:VCALENDAR".toList])

/-- The destination directory as the exporter touches it: the contents at the
destination path, and how many temporary artifacts remain beside it. -/
structure FS where
  dest : Option (List Char)
  tmpCount : ℕ
deriving DecidableEq, Repr

/-- `ICSExporter.export`: the document is fully built in memory first; only on
success is a temporary file created, written and atomically renamed over the
destination (`os.replace`), with the `finally` block removing any leftover
temporary file. An error while sorting or formatting therefore leaves the
filesystem untouched. -/
def exportFS (t : DateTime) (uuids : ℕ → List Char) (reviews : List ReviewItemN)
    (items : List (List Char × StudyItem)) (fs : FS) : Except PyErr Unit × FS :=
  match buildLines t uuids reviews items with
  | Except.error e => (Except.error e, fs)
  | Except.ok lines =>
    (Except.ok (),
      { dest := some (List.intercalate ['\r', '\n'] lines ++ ['\r', '\n']),
        tmpCount := fs.tmpCount })

instance reviewKeyTotal : IsTotal ReviewItemN (fun a b => reviewKey a ≤ reviewKey b) :=
  ⟨fun a b => Nat.le_total _ _⟩

instance reviewKeyTrans : IsTrans ReviewItemN (fun a b => reviewKey a ≤ reviewKey b) :=
  ⟨fun a b c => Nat.le_trans⟩

/-- Two lines that may legitimately differ between two runs of `export` on the
same input: equal lines, `UID:` lines sharing the item id but differing in the
random component, or `DTSTAMP:` lines carrying each run's export time. -/
def volatileRel (a b : List Char) : Prop :=
  a = b ∨
  (∃ rid u1 u2 : List Char,
      a = fold ("UID:".toList ++ escape (rid ++ '-' :: (u1 ++ "@jubarte".toList))) ∧
      b = fold ("UID:".toList ++ escape (rid ++ '-' :: (u2 ++ "@jubarte".toList)))) ∨
  (∃ d1 d2 : DateTime,
      a = fold ("DTSTAMP:".toList ++ format_dt d1) ∧
      b = fold ("DTSTAMP:".toList ++ format_dt d2))

/-- Concrete inputs shared by the exporter witnesses. -/
def wTime : DateTime := ⟨2025, 1, 2, 3, 4, 5, 0, some 0⟩

/-- A concrete dated review for the exporter witnesses. -/
def wReview : ReviewItemN := { item_id := ['a'], review_date := some wTime }

/-- A concrete dateless review for the exporter witnesses. -/
def wNoneReview : ReviewItemN := { item_id := ['a'], review_date := none }

/-- A concrete uuid stream for the exporter witnesses. -/
def wUuids : ℕ → List Char := fun _ => ['u']

/-! ## Theorems -/

/-- C1: for every `StudyItem`, `SimpleSpacedScheduler.generate_initial` returns
exactly 10 `ReviewItem`s, one per offset in `[1, 3, 7, 14, 30, 60, 120, 240,
360, 720]`; the k-th record has `review_date` equal to the call-time UTC `now`
plus the k-th offset in days (and carries the item's id), and the returned list
is in strictly ascending `review_date` order. -/
theorem generate_initial_ten_ascending (now : ℤ) (item : StudyItemZ) :
    (generate_initial now item).length = 10 ∧
    (∀ k : ℕ, (generate_initial now item).get? k =
      (BASE_INTERVALS.get? k).map
        (fun days => { item_id := item.id, review_date := now + days * secondsPerDay })) ∧
    (generate_initial now item).Pairwise (fun a b => a.review_date < b.review_date) := by
  refine ⟨by simp [generate_initial, BASE_INTERVALS], fun k => ?_, ?_⟩
  · simp [generate_initial, List.get?_eq_getElem?, List.getElem?_map]
  · simp only [generate_initial, List.pairwise_map, BASE_INTERVALS]
    norm_num [List.pairwise_cons, secondsPerDay]

/-- C9: every `ReviewItem` produced by `generate_initial` has `review_date`
equal to the call-time `now` plus a positive whole-day offset drawn from
`BASE_INTERVALS` (hence at least one day after `now`), so it is never scheduled
before the moment of generation, and never before the item's creation time
whenever generation happens at or after creation. -/
theorem generate_initial_never_backdated (now created : ℤ) (item : StudyItemZ)
    (hc : created ≤ now) :
    ∀ r ∈ generate_initial now item,
      (∃ d ∈ BASE_INTERVALS, 1 ≤ d ∧ r.review_date = now + d * secondsPerDay) ∧
      now + secondsPerDay ≤ r.review_date ∧ created ≤ r.review_date := by
  intro r hr
  simp only [generate_initial, List.mem_map] at hr
  obtain ⟨d, hd, rfl⟩ := hr
  have hd1 : 1 ≤ d := by
    simp only [BASE_INTERVALS, List.mem_cons, List.not_mem_nil, or_false] at hd
    rcases hd with rfl | rfl | rfl | rfl | rfl | rfl | rfl | rfl | rfl | rfl <;> norm_num
  refine ⟨⟨d, hd, hd1, rfl⟩, ?_, ?_⟩ <;> simp only [secondsPerDay] <;> omega

@[simp] theorem dictInsert_nil {α : Type} (k : List Char) (v : α) :
    dictInsert [] k v = [(k, v)] := rfl

@[simp] theorem dictInsert_cons {α : Type} (k' : List Char) (v' : α) (rest : List (List Char × α))
    (k : List Char) (v : α) :
    dictInsert ((k', v') :: rest) k v =
      if k' = k then (k, v) :: rest else (k', v') :: dictInsert rest k v := rfl

@[simp] theorem dictGet_nil {α : Type} (k : List Char) : dictGet ([] : List (List Char × α)) k = none := rfl

@[simp] theorem dictGet_cons {α : Type} (k' : List Char) (v' : α) (rest : List (List Char × α))
    (k : List Char) :
    dictGet ((k', v') :: rest) k = if k' = k then some v' else dictGet rest k := rfl

theorem dictInsert_key_mem {α : Type} {l : List (List Char × α)} {k x : List Char} {v : α}
    (h : x ∈ (dictInsert l k v).map Prod.fst) : x ∈ l.map Prod.fst ∨ x = k := by
  induction l with
  | nil => simpa using h
  | cons p rest ih =>
    obtain ⟨k', v'⟩ := p
    by_cases hk : k' = k
    · subst hk
      rw [dictInsert_cons, if_pos rfl] at h
      simp only [List.map_cons, List.mem_cons] at h ⊢
      rcases h with h | h
      · exact Or.inr h
      · exact Or.inl (Or.inr h)
    · simp only [dictInsert_cons, if_neg hk, List.map_cons, List.mem_cons] at h ⊢
      rcases h with rfl | h
      · exact Or.inl (Or.inl rfl)
      · rcases ih h with h' | h'
        · exact Or.inl (Or.inr h')
        · exact Or.inr h'

theorem dictInsert_keys_nodup {α : Type} (l : List (List Char × α)) (k : List Char) (v : α)
    (h : (l.map Prod.fst).Nodup) : ((dictInsert l k v).map Prod.fst).Nodup := by
  induction l with
  | nil => simp
  | cons p rest ih =>
    obtain ⟨k', v'⟩ := p
    simp only [List.map_cons, List.nodup_cons] at h
    by_cases hk : k' = k
    · subst hk
      rw [dictInsert_cons, if_pos rfl]
      simp only [List.map_cons, List.nodup_cons]
      exact h
    · simp only [dictInsert_cons, if_neg hk, List.map_cons, List.nodup_cons]
      refine ⟨fun hm => ?_, ih h.2⟩
      rcases dictInsert_key_mem hm with h' | h'
      · exact h.1 h'
      · exact hk h'

theorem dictInsert_values_mem {α : Type} {l : List (List Char × α)} {k : List Char} {v : α}
    {p : List Char × α} (h : p ∈ dictInsert l k v) : p ∈ l ∨ p = (k, v) := by
  induction l with
  | nil => simpa using h
  | cons q rest ih =>
    obtain ⟨k', v'⟩ := q
    by_cases hk : k' = k
    · subst hk
      rw [dictInsert_cons, if_pos rfl] at h
      rcases List.mem_cons.mp h with h | h
      · exact Or.inr h
      · exact Or.inl (List.mem_cons_of_mem _ h)
    · simp only [dictInsert_cons, if_neg hk, List.mem_cons] at h ⊢
      rcases h with rfl | h
      · exact Or.inl (Or.inl rfl)
      · rcases ih h with h' | h'
        · exact Or.inl (Or.inr h')
        · exact Or.inr h'

theorem save_review_wf (st : MemoryStore) (r : ReviewItemZ) (h : st.reviewsWF) :
    (st.save_review r).reviewsWF := by
  refine ⟨dictInsert_keys_nodup _ _ _ h.1, fun p hp => ?_⟩
  rcases dictInsert_values_mem hp with h' | h'
  · exact h.2 p h'
  · subst h'; rfl

/-- Re-assigning the same key overwrites: saving two reviews for the same item
leaves exactly what saving only the second one leaves. -/
theorem dictInsert_overwrite {α : Type} (l : List (List Char × α)) (k : List Char) (v1 v2 : α) :
    dictInsert (dictInsert l k v1) k v2 = dictInsert l k v2 := by
  induction l with
  | nil => simp
  | cons p rest ih =>
    obtain ⟨k', v'⟩ := p
    by_cases hk : k' = k
    · subst hk
      simp
    · simp [if_neg hk, ih]

/-- With unique keys and every value keyed by its own `item_id`, each `item_id`
occurs at most once among the stored values. -/
theorem countP_values_le_one (l : List (List Char × ReviewItemZ))
    (hnd : (l.map Prod.fst).Nodup) (hkey : ∀ p ∈ l, p.2.item_id = p.1) (x : List Char) :
    (l.map Prod.snd).countP (fun r => decide (r.item_id = x)) ≤ 1 := by
  induction l with
  | nil => simp
  | cons p rest ih =>
    obtain ⟨k', v'⟩ := p
    simp only [List.map_cons, List.nodup_cons] at hnd
    have hv : v'.item_id = k' := hkey (k', v') (by simp)
    rw [List.map_cons, List.countP_cons]
    by_cases hx : v'.item_id = x
    · have hcnt : (rest.map Prod.snd).countP (fun r => decide (r.item_id = x)) = 0 := by
        rw [List.countP_eq_zero]
        intro r hr
        simp only [List.mem_map] at hr
        obtain ⟨q, hq, rfl⟩ := hr
        have hq1 : q.2.item_id = q.1 := hkey q (List.mem_cons_of_mem _ hq)
        simp only [decide_eq_true_eq]
        intro hqx
        apply hnd.1
        have hk : q.1 = k' := by rw [← hq1, hqx, ← hx, hv]
        rw [← hk]
        exact List.mem_map_of_mem Prod.fst hq
      simp [hcnt, hx]
    · have := ih hnd.2 (fun q hq => hkey q (List.mem_cons_of_mem _ hq))
      simpa [hx] using this

/-- Witness for C9 at a concrete generation time, creation time and item. -/
theorem generate_initial_never_backdated_witness :
    (0 : ℤ) ≤ 0 ∧
    ((⟨['a'], 86400⟩ : ReviewItemZ) ∈ generate_initial 0 ⟨['a'], ['t'], [], 0⟩) ∧
    ((∃ d ∈ BASE_INTERVALS, 1 ≤ d ∧
        (⟨['a'], 86400⟩ : ReviewItemZ).review_date = 0 + d * secondsPerDay) ∧
      0 + secondsPerDay ≤ (⟨['a'], 86400⟩ : ReviewItemZ).review_date ∧
      0 ≤ (⟨['a'], 86400⟩ : ReviewItemZ).review_date) :=
  ⟨le_refl 0, by decide,
    generate_initial_never_backdated 0 0 ⟨['a'], ['t'], [], 0⟩ (le_refl 0)
      ⟨['a'], 86400⟩ (by decide)⟩

/-- Folding `save_review` over records that all share one `item_id` leaves a
single binding holding the last such record. -/
theorem foldl_save_review_const_key (k : List Char) :
    ∀ (rs : List ReviewItemZ) (st : MemoryStore) (r : ReviewItemZ),
      r.item_id = k → (∀ x ∈ rs, x.item_id = k) →
      (rs.foldl MemoryStore.save_review (st.save_review r))._reviews
        = dictInsert st._reviews k (rs.getLastD r) := by
  intro rs
  induction rs with
  | nil =>
    intro st r hr _
    simp [MemoryStore.save_review, hr, List.getLastD]
  | cons r2 rs' ih =>
    intro st r hr hall
    rw [List.foldl_cons]
    have h2 : r2.item_id = k := hall r2 (by simp)
    rw [ih (st.save_review r) r2 h2 (fun x hx => hall x (by simp [hx]))]
    simp only [MemoryStore.save_review, hr]
    rw [dictInsert_overwrite, List.getLastD_cons]

/-- C10: `MemoryStore` keeps at most one `ReviewItem` per `item_id`:
`save_review` keys the `_reviews` dict by `review.item_id`, so (1) saving
preserves the dict invariants, (2) saving a second review for the same item
replaces the first, (3) `load_reviews` yields at most one review per study
item, and (4) saving the 10 fixed-horizon records of one item into a fresh
`MemoryStore` retains only the last-saved record (offset 720 days). -/
theorem memory_store_one_review_per_item :
    (∀ (st : MemoryStore) (r : ReviewItemZ), st.reviewsWF → (st.save_review r).reviewsWF) ∧
    (∀ (st : MemoryStore) (r1 r2 : ReviewItemZ), r1.item_id = r2.item_id →
      ((st.save_review r1).save_review r2)._reviews = (st.save_review r2)._reviews) ∧
    (∀ st : MemoryStore, st.reviewsWF → ∀ x : List Char,
      st.load_reviews.countP (fun r => decide (r.item_id = x)) ≤ 1) ∧
    (∀ (now : ℤ) (item : StudyItemZ),
      ((generate_initial now item).foldl MemoryStore.save_review MemoryStore.init).load_reviews
        = [{ item_id := item.id, review_date := now + 720 * secondsPerDay }]) := by
  refine ⟨fun st r h => save_review_wf st r h, ?_, ?_, ?_⟩
  · intro st r1 r2 h
    simp only [MemoryStore.save_review]
    rw [h, dictInsert_overwrite]
  · intro st h x
    exact countP_values_le_one st._reviews h.1 h.2 x
  · intro now item
    have hgen : generate_initial now item =
        ({ item_id := item.id, review_date := now + 1 * secondsPerDay } : ReviewItemZ) ::
          (([3, 7, 14, 30, 60, 120, 240, 360, 720] : List ℤ).map
            (fun days =>
              { item_id := item.id, review_date := now + days * secondsPerDay })) := by
      simp [generate_initial, BASE_INTERVALS]
    rw [hgen, List.foldl_cons]
    simp only [MemoryStore.load_reviews]
    rw [foldl_save_review_const_key item.id _ MemoryStore.init _ rfl
        (by intro x hx; simp only [List.mem_map] at hx; obtain ⟨d, _, rfl⟩ := hx; rfl)]
    simp [MemoryStore.init, List.getLastD_cons, List.getLastD]

/-- Witness for C10 at a concrete store, review and item id. -/
theorem memory_store_one_review_per_item_witness :
    MemoryStore.init.reviewsWF ∧
    (MemoryStore.init.save_review ⟨['a'], 5⟩).reviewsWF ∧
    MemoryStore.init.load_reviews.countP (fun r => decide (r.item_id = ['a'])) ≤ 1 :=
  ⟨by decide,
    memory_store_one_review_per_item.1 MemoryStore.init ⟨['a'], 5⟩ (by decide),
    memory_store_one_review_per_item.2.2.1 MemoryStore.init (by decide) ['a']⟩

theorem update_ease_proj (now : ℤ) (rec : ReviewEntry) (res : ReviewResult) :
    (update now rec res).ease = updateEase res rec.ease := rfl

theorem update_interval_proj (now : ℤ) (rec : ReviewEntry) (res : ReviewResult) :
    (update now rec res).interval_days
      = max 1 (pyRound ((rec.interval_days : ℚ) * resultFactor res)) := rfl

theorem updateEase_bounds (res : ReviewResult) (e : ℚ)
    (he1 : 13 / 10 ≤ e) (he2 : e ≤ 45 / 10) :
    13 / 10 ≤ updateEase res e ∧ updateEase res e ≤ 45 / 10 := by
  cases res with
  | again =>
    exact ⟨le_max_left _ _, max_le (by norm_num) (by linarith)⟩
  | hard => exact ⟨he1, he2⟩
  | good => exact ⟨he1, he2⟩
  | easy =>
    exact ⟨le_min (by norm_num) (by linarith), min_le_left _ _⟩

/-- C2: for every record with `interval_days ≥ 1` and `ease ∈ [1.3, 4.5]` and
every one of the four outcome labels, `update` yields
`interval_days = max(1, round(old_interval * factor))` with factors again=1,
hard=1.2, good=2, easy=3, the new `interval_days` is ≥ 1, and `ease` stays
within `[1.3, 4.5]`. -/
theorem update_interval_and_ease_bounds (now : ℤ) (rec : ReviewEntry) (res : ReviewResult)
    (hint : 1 ≤ rec.interval_days)
    (he1 : 13 / 10 ≤ rec.ease) (he2 : rec.ease ≤ 45 / 10) :
    (update now rec res).interval_days
      = max 1 (pyRound ((rec.interval_days : ℚ) * resultFactor res)) ∧
    1 ≤ (update now rec res).interval_days ∧
    13 / 10 ≤ (update now rec res).ease ∧ (update now rec res).ease ≤ 45 / 10 := by
  rw [update_interval_proj, update_ease_proj]
  exact ⟨rfl, le_max_left _ _, (updateEase_bounds res rec.ease he1 he2).1,
    (updateEase_bounds res rec.ease he1 he2).2⟩

/-- Witness for C2 at a concrete record and the label `good`. -/
theorem update_interval_and_ease_bounds_witness :
    (1 : ℤ) ≤ 1 ∧ (13 : ℚ) / 10 ≤ 25 / 10 ∧ (25 : ℚ) / 10 ≤ 45 / 10 ∧
    ((update 0 ⟨['a'], 1, 25 / 10, 0, 0, []⟩ ReviewResult.good).interval_days
        = max 1 (pyRound (((⟨['a'], 1, 25 / 10, 0, 0, []⟩ : ReviewEntry).interval_days : ℚ)
            * resultFactor ReviewResult.good)) ∧
      1 ≤ (update 0 ⟨['a'], 1, 25 / 10, 0, 0, []⟩ ReviewResult.good).interval_days ∧
      13 / 10 ≤ (update 0 ⟨['a'], 1, 25 / 10, 0, 0, []⟩ ReviewResult.good).ease ∧
      (update 0 ⟨['a'], 1, 25 / 10, 0, 0, []⟩ ReviewResult.good).ease ≤ 45 / 10) :=
  ⟨le_refl 1, by norm_num, by norm_num,
    update_interval_and_ease_bounds 0 ⟨['a'], 1, 25 / 10, 0, 0, []⟩ ReviewResult.good
      (by norm_num) (by norm_num) (by norm_num)⟩

theorem parseDigit_digitChar (n : ℕ) : parseDigit (digitChar n) = some (n % 10) := by
  have h : n % 10 < 10 := Nat.mod_lt _ (by norm_num)
  have key : ∀ k, k < 10 → parseDigit (Char.ofNat (48 + k)) = some k := by decide
  exact key (n % 10) h

theorem parse2_pad2 (n : ℕ) (h : n ≤ 99) (rest : List Char) :
    parse2 (pad2 n ++ rest) = some (n, rest) := by
  have hval : 10 * (n / 10 % 10) + n % 10 = n := by omega
  simp [pad2, parse2, parseDigit_digitChar, Option.bind, hval]

theorem parse4_pad4 (n : ℕ) (h : n ≤ 9999) (rest : List Char) :
    parse4 (pad4 n ++ rest) = some (n, rest) := by
  have hval : 1000 * (n / 1000 % 10) + 100 * (n / 100 % 10) + 10 * (n / 10 % 10) + n % 10 = n := by
    omega
  simp [pad4, parse4, parseDigit_digitChar, Option.bind, hval]

theorem parse6_pad6 (n : ℕ) (h : n < 1000000) (rest : List Char) :
    parse6 (pad6 n ++ rest) = some (n, rest) := by
  have hval : 100000 * (n / 100000 % 10) + 10000 * (n / 10000 % 10) + 1000 * (n / 1000 % 10)
      + 100 * (n / 100 % 10) + 10 * (n / 10 % 10) + n % 10 = n := by omega
  simp [pad6, parse6, parseDigit_digitChar, Option.bind, hval]

theorem expectChar_cons (c : Char) (rest : List Char) :
    expectChar c (c :: rest) = some rest := by
  simp [expectChar]

theorem parse2_pad2_end (n : ℕ) (h : n ≤ 99) : parse2 (pad2 n) = some (n, []) := by
  simpa using parse2_pad2 n h []

theorem parse6_pad6_end (n : ℕ) (h : n < 1000000) : parse6 (pad6 n) = some (n, []) := by
  simpa using parse6_pad6 n h []

theorem parseTz_nil : parseTz [] = some (none, []) := rfl

theorem parseMicro_dot (rest : List Char) : parseMicro ('.' :: rest) = parse6 rest := rfl

theorem parseMicro_nil : parseMicro [] = some (0, []) := rfl

theorem parseMicro_other (c : Char) (h : ¬c = '.') (rest : List Char) :
    parseMicro (c :: rest) = some (0, c :: rest) := by
  unfold parseMicro
  split
  · rename_i heq
    injection heq with h1 h2
    exact absurd h1 h
  · rfl

theorem parseTz_offset (m : ℤ) (h : m.natAbs ≤ 1439) :
    parseTz ((if m < 0 then '-' else '+') ::
      (pad2 (m.natAbs / 60) ++ ':' :: pad2 (m.natAbs % 60))) = some (some m, []) := by
  have ha : m.natAbs / 60 ≤ 99 := by omega
  have hb : m.natAbs % 60 ≤ 99 := by omega
  by_cases hm : m < 0
  · rw [if_pos hm]
    unfold parseTz
    dsimp only
    rw [if_neg (by decide : ¬('-' : Char) = 'Z'),
      if_pos (Or.inr rfl : ('-' : Char) = '+' ∨ ('-' : Char) = '-')]
    simp only [Option.bind_eq_bind, Option.some_bind, List.cons_append, List.append_assoc,
      parse2_pad2 _ ha, expectChar_cons, parse2_pad2_end _ hb, if_pos rfl]
    have hval : (-(↑(m.natAbs / 60) * 60 + ↑(m.natAbs % 60)) : ℤ) = m := by omega
    rw [hval]
    simp
  · rw [if_neg hm]
    unfold parseTz
    dsimp only
    rw [if_neg (by decide : ¬('+' : Char) = 'Z'),
      if_pos (Or.inl rfl : ('+' : Char) = '+' ∨ ('+' : Char) = '-')]
    simp only [Option.bind_eq_bind, Option.some_bind, List.cons_append, List.append_assoc,
      parse2_pad2 _ ha, expectChar_cons, parse2_pad2_end _ hb,
      if_neg (by decide : ¬('+' : Char) = '-')]
    have hval : ((↑(m.natAbs / 60) * 60 + ↑(m.natAbs % 60)) : ℤ) = m := by omega
    rw [hval]

/-- Parsing inverts printing on valid datetimes. -/
theorem fromisoformat_isoformat (dt : DateTime) (h : dt.valid) :
    fromisoformat (isoformat dt) = some dt := by
  obtain ⟨y, mo, dy, hh, mi, s, mic, tz⟩ := dt
  obtain ⟨hy1, hy2, hmo1, hmo2, hd1, hd2, hhh, hmii, hss, hmicc, htzv⟩ := h
  dsimp only at hy1 hy2 hmo1 hmo2 hd1 hd2 hhh hmii hss hmicc htzv
  have hmo : mo ≤ 99 := by omega
  have hdy : dy ≤ 99 := by omega
  have hhh' : hh ≤ 99 := by omega
  have hmi' : mi ≤ 99 := by omega
  have hs' : s ≤ 99 := by omega
  unfold isoformat fromisoformat parseYMD parseHMS
  dsimp only
  rcases tz with _ | m
  · by_cases hmic0 : mic = 0
    · subst hmic0
      dsimp only
      simp only [if_pos rfl, if_true, List.append_nil, List.nil_append, List.cons_append,
        List.append_assoc, Option.bind_eq_bind, Option.some_bind,
        parse4_pad4 y hy2, expectChar_cons, parse2_pad2 mo hmo, parse2_pad2 dy hdy,
        parse2_pad2 hh hhh', parse2_pad2 mi hmi']
      simp only [parse2_pad2_end s hs', Option.some_bind, parseMicro_nil, parseTz_nil, if_true]
    · dsimp only
      simp only [if_neg hmic0, if_true, List.append_nil, List.nil_append, List.cons_append,
        List.append_assoc, Option.bind_eq_bind, Option.some_bind,
        parse4_pad4 y hy2, expectChar_cons, parse2_pad2 mo hmo, parse2_pad2 dy hdy,
        parse2_pad2 hh hhh', parse2_pad2 mi hmi']
      simp only [parse2_pad2 s hs', Option.some_bind, parseMicro_dot,
        parse6_pad6_end mic hmicc, parseTz_nil, if_true]
  · have htzm : m.natAbs ≤ 1439 := htzv
    have hsign : ¬(if m < 0 then '-' else '+') = '.' := by
      by_cases hm : m < 0
      · rw [if_pos hm]; decide
      · rw [if_neg hm]; decide
    by_cases hmic0 : mic = 0
    · subst hmic0
      dsimp only
      simp only [if_pos rfl, if_true, List.append_nil, List.nil_append, List.cons_append,
        List.append_assoc, Option.bind_eq_bind, Option.some_bind,
        parse4_pad4 y hy2, expectChar_cons, parse2_pad2 mo hmo, parse2_pad2 dy hdy,
        parse2_pad2 hh hhh', parse2_pad2 mi hmi']
      simp only [parse2_pad2 s hs', Option.some_bind, parseMicro_other _ hsign,
        parseTz_offset m htzm, if_true]
    · dsimp only
      simp only [if_neg hmic0, if_true, List.append_nil, List.nil_append, List.cons_append,
        List.append_assoc, Option.bind_eq_bind, Option.some_bind,
        parse4_pad4 y hy2, expectChar_cons, parse2_pad2 mo hmo, parse2_pad2 dy hdy,
        parse2_pad2 hh hhh', parse2_pad2 mi hmi']
      simp only [parse2_pad2 s hs', Option.some_bind, parseMicro_dot,
        parse6_pad6 mic hmicc, parseTz_offset m htzm, if_true]

/-- C7: serialization round-trips: for every `StudyItem` x,
`StudyItem.from_dict(x.to_dict())` equals x field for field (id, title, notes,
created_at to full timestamp precision), and for every `ReviewItem` r,
`ReviewItem.from_dict(r.to_dict())` equals r field for field (item_id,
review_date). -/
theorem to_dict_from_dict_roundtrip :
    (∀ x : StudyItem, x.created_at.valid → StudyItem.from_dict x.to_dict = some x) ∧
    (∀ r : ReviewItem, r.review_date.valid → ReviewItem.from_dict r.to_dict = some r) := by
  constructor
  · intro x hv
    simp [StudyItem.from_dict, StudyItem.to_dict, fromisoformat_isoformat x.created_at hv]
  · intro r hv
    simp [ReviewItem.from_dict, ReviewItem.to_dict, fromisoformat_isoformat r.review_date hv]

/-- Witness for C7 at a concrete item and review. -/
theorem to_dict_from_dict_roundtrip_witness :
    (⟨['i'], ['t'], [], ⟨2025, 10, 12, 3, 4, 5, 0, some 0⟩⟩ : StudyItem).created_at.valid ∧
    StudyItem.from_dict
        (StudyItem.to_dict ⟨['i'], ['t'], [], ⟨2025, 10, 12, 3, 4, 5, 0, some 0⟩⟩)
      = some ⟨['i'], ['t'], [], ⟨2025, 10, 12, 3, 4, 5, 0, some 0⟩⟩ ∧
    (⟨['i'], ⟨2026, 1, 2, 23, 59, 58, 999999, none⟩⟩ : ReviewItem).review_date.valid ∧
    ReviewItem.from_dict (ReviewItem.to_dict ⟨['i'], ⟨2026, 1, 2, 23, 59, 58, 999999, none⟩⟩)
      = some ⟨['i'], ⟨2026, 1, 2, 23, 59, 58, 999999, none⟩⟩ :=
  ⟨by decide,
    to_dict_from_dict_roundtrip.1 ⟨['i'], ['t'], [], ⟨2025, 10, 12, 3, 4, 5, 0, some 0⟩⟩
      (by decide),
    by decide,
    to_dict_from_dict_roundtrip.2 ⟨['i'], ⟨2026, 1, 2, 23, 59, 58, 999999, none⟩⟩
      (by decide)⟩

theorem pyReplace_nil (pat rep : List Char) : pyReplace pat rep [] = [] := by
  rw [pyReplace.eq_def]

theorem pyReplace_single (a : Char) (rep : List Char) (c : Char) (s : List Char) :
    pyReplace [a] rep (c :: s) =
      if c = a then rep ++ pyReplace [a] rep s else c :: pyReplace [a] rep s := by
  rw [pyReplace.eq_def]
  by_cases h : c = a
  · subst h
    simp [List.isPrefixOf]
  · have h' : ¬a = c := fun he => h he.symm
    simp [List.isPrefixOf, h, h']

theorem pyReplace_pair_match (a b : Char) (rep : List Char) (s : List Char) :
    pyReplace [a, b] rep (a :: b :: s) = rep ++ pyReplace [a, b] rep s := by
  rw [pyReplace.eq_def]
  simp [List.isPrefixOf]

theorem pyReplace_pair_nomatch (a b c : Char) (rep : List Char) (s : List Char)
    (h : ¬(c = a ∧ s.head? = some b)) :
    pyReplace [a, b] rep (c :: s) = c :: pyReplace [a, b] rep s := by
  rw [pyReplace.eq_def]
  rcases s with _ | ⟨d, t⟩
  · simp [List.isPrefixOf]
  · have hcd : ¬(a = c ∧ b = d) := by
      rintro ⟨h1, h2⟩
      exact h ⟨h1.symm, by rw [List.head?_cons, h2]⟩
    simp [List.isPrefixOf, hcd]

theorem mapRep_nil (f : Char → List Char) : mapRep f [] = [] := rfl

theorem mapRep_cons (f : Char → List Char) (c : Char) (s : List Char) :
    mapRep f (c :: s) = f c ++ mapRep f s := rfl

theorem mapRep_append (f : Char → List Char) (s t : List Char) :
    mapRep f (s ++ t) = mapRep f s ++ mapRep f t := by
  induction s with
  | nil => rfl
  | cons c s ih => simp [mapRep_cons, ih]

theorem mapRep_mapRep (f g : Char → List Char) (s : List Char) :
    mapRep f (mapRep g s) = mapRep (fun c => mapRep f (g c)) s := by
  induction s with
  | nil => rfl
  | cons c s ih => simp [mapRep_cons, mapRep_append, ih]

theorem pyReplace_single_eq (a : Char) (rep : List Char) (s : List Char) :
    pyReplace [a] rep s = mapRep (fun c => if c = a then rep else [c]) s := by
  induction s with
  | nil => simp [pyReplace_nil, mapRep_nil]
  | cons c s ih =>
    rw [pyReplace_single, mapRep_cons]
    by_cases h : c = a <;> simp [h, ih]

theorem tail_passes_eq (s : List Char) :
    pyReplace [';'] ['\\', ';']
      (pyReplace [','] ['\\', ',']
        (pyReplace ['\n'] ['\\', 'n']
          (pyReplace ['\r'] ['\n'] s))) = mapRep e346 s := by
  rw [pyReplace_single_eq, pyReplace_single_eq, pyReplace_single_eq, pyReplace_single_eq,
    mapRep_mapRep, mapRep_mapRep, mapRep_mapRep]
  induction s with
  | nil => rfl
  | cons c s ih =>
    rw [mapRep_cons, mapRep_cons, ih]
    congr 1
    by_cases h1 : c = '\r'
    · subst h1; decide
    · by_cases h2 : c = '\n'
      · subst h2; decide
      · by_cases h3 : c = ','
        · subst h3; decide
        · by_cases h4 : c = ';'
          · subst h4; decide
          · simp [mapRep, e346, h1, h2, h3, h4]

theorem head_esc1 (s : List Char) :
    ((pyReplace ['\\'] ['\\', '\\'] s).head? = some '\n') ↔ (s.head? = some '\n') := by
  rcases s with _ | ⟨c, t⟩
  · simp [pyReplace_nil]
  · rw [pyReplace_single]
    by_cases h : c = '\\'
    · subst h
      simp
    · simp [h]

theorem escapeSpec_nil : escapeSpec [] = [] := rfl

theorem escapeSpec_crlf (t : List Char) :
    escapeSpec ('\r' :: '\n' :: t) = '\\' :: 'n' :: escapeSpec t := rfl

theorem escapeSpec_cons (c : Char) (s : List Char) (h : ¬(c = '\r' ∧ s.head? = some '\n')) :
    escapeSpec (c :: s) = escChar c ++ escapeSpec s := by
  rw [escapeSpec.eq_def]
  split
  · rename_i heq
    injection heq
  · rename_i t heq
    injection heq with h1 h2
    subst h1
    subst h2
    exact absurd ⟨rfl, rfl⟩ h
  · rename_i x1 c3 rest3 hno heq
    injection heq with h1 h2
    subst h1
    subst h2
    rfl

theorem escape_eq_mapRep (s : List Char) :
    escape s =
      mapRep e346 (pyReplace ['\r', '\n'] ['\n'] (pyReplace ['\\'] ['\\', '\\'] s)) := by
  unfold escape
  rw [tail_passes_eq]

theorem escape_eq_escapeSpec_aux : ∀ n (s : List Char), s.length ≤ n → escape s = escapeSpec s := by
  intro n
  induction n with
  | zero =>
    intro s h
    have hs : s = [] := List.eq_nil_of_length_eq_zero (Nat.le_zero.mp h)
    subst hs
    simp [escape, pyReplace_nil, escapeSpec_nil]
  | succ n ih =>
    intro s hlen
    rcases s with _ | ⟨c, s'⟩
    · simp [escape, pyReplace_nil, escapeSpec_nil]
    · simp only [List.length_cons] at hlen
      rw [escape_eq_mapRep]
      by_cases hc : c = '\r'
      · subst hc
        rcases s' with _ | ⟨c2, s''⟩
        · rw [pyReplace_single, if_neg (by decide : ¬('\r' : Char) = '\\'), pyReplace_nil,
            pyReplace_pair_nomatch '\r' '\n' '\r' ['\n'] [] (by simp), pyReplace_nil]
          decide
        · by_cases hc2 : c2 = '\n'
          · subst hc2
            rw [escapeSpec_crlf,
              pyReplace_single, if_neg (by decide : ¬('\r' : Char) = '\\'),
              pyReplace_single, if_neg (by decide : ¬('\n' : Char) = '\\'),
              pyReplace_pair_match, List.singleton_append, mapRep_cons]
            have hrec := ih s'' (by simp only [List.length_cons] at hlen; omega)
            rw [escape_eq_mapRep] at hrec
            rw [hrec]
            rfl
          · have hhd : ¬('\r' = '\r' ∧ (c2 :: s'').head? = some '\n') := by
              rintro ⟨-, h2⟩
              rw [List.head?_cons] at h2
              exact hc2 (Option.some.inj h2)
            rw [escapeSpec_cons _ _ hhd,
              pyReplace_single, if_neg (by decide : ¬('\r' : Char) = '\\')]
            have hhd2 : ¬('\r' = '\r' ∧
                (pyReplace ['\\'] ['\\', '\\'] (c2 :: s'')).head? = some '\n') := by
              rintro ⟨-, h2⟩
              rw [head_esc1, List.head?_cons] at h2
              exact hc2 (Option.some.inj h2)
            rw [pyReplace_pair_nomatch '\r' '\n' '\r' ['\n'] _ hhd2, mapRep_cons]
            have hrec := ih (c2 :: s'') (by simp only [List.length_cons] at hlen ⊢; omega)
            rw [escape_eq_mapRep] at hrec
            rw [hrec]
            rfl
      · by_cases hb : c = '\\'
        · subst hb
          have hspec : ¬('\\' = '\r' ∧ (s').head? = some '\n') := by
            rintro ⟨h1, -⟩
            exact absurd h1 (by decide)
          rw [escapeSpec_cons _ _ hspec,
            pyReplace_single, if_pos rfl, List.cons_append, List.cons_append,
            List.nil_append,
            pyReplace_pair_nomatch '\r' '\n' '\\' ['\n'] _ (by rintro ⟨h1, -⟩; exact absurd h1 (by decide)),
            pyReplace_pair_nomatch '\r' '\n' '\\' ['\n'] _ (by rintro ⟨h1, -⟩; exact absurd h1 (by decide)),
            mapRep_cons, mapRep_cons]
          have hrec := ih s' (by omega)
          rw [escape_eq_mapRep] at hrec
          rw [hrec]
          rfl
        · have hspec : ¬(c = '\r' ∧ (s').head? = some '\n') := by
            rintro ⟨h1, -⟩
            exact hc h1
          rw [escapeSpec_cons _ _ hspec,
            pyReplace_single, if_neg hb,
            pyReplace_pair_nomatch '\r' '\n' c ['\n'] _ (by rintro ⟨h1, -⟩; exact hc h1),
            mapRep_cons]
          have hrec := ih s' (by omega)
          rw [escape_eq_mapRep] at hrec
          rw [hrec]
          congr 1
          simp only [e346, escChar, if_neg hb]

theorem escape_eq_escapeSpec (s : List Char) : escape s = escapeSpec s :=
  escape_eq_escapeSpec_aux s.length s (le_refl _)

/-- C3: the exporter's text escaping replaces each backslash with a double
backslash, normalizes every CRLF and lone CR to LF and then replaces each LF
with the two-character sequence backslash-n, and escapes each comma and
semicolon with a preceding backslash — equivalently, it acts per character
(with CRLF collapsing to one backslash-n) as `escapeSpec` does; in particular
the input `a,b;c<LF>d` escapes to the literal text `a\,b\;c\nd`. -/
theorem escape_per_char_and_example :
    (∀ s : List Char, escape s = escapeSpec s) ∧
    escape ("a,b;c\nd".toList) = "a\\,b\\;c\\nd".toList := by
  refine ⟨escape_eq_escapeSpec, ?_⟩
  rw [escape_eq_escapeSpec]
  decide

theorem chunks75_nil : chunks75 [] = [] := by
  rw [chunks75.eq_def]

theorem chunks75_cons (c : Char) (rest : List Char) :
    chunks75 (c :: rest) = (c :: rest).take 75 :: chunks75 (rest.drop 74) := by
  rw [chunks75.eq_def]

theorem chunks75_flatten : ∀ n (l : List Char), l.length ≤ n → (chunks75 l).flatten = l := by
  intro n
  induction n with
  | zero =>
    intro l h
    have : l = [] := List.eq_nil_of_length_eq_zero (Nat.le_zero.mp h)
    subst this
    simp [chunks75_nil]
  | succ n ih =>
    intro l h
    rcases l with _ | ⟨c, rest⟩
    · simp [chunks75_nil]
    · rw [chunks75_cons, List.flatten_cons]
      have hdrop : rest.drop 74 = (c :: rest).drop 75 := rfl
      rw [hdrop, ih ((c :: rest).drop 75) (by simp only [List.length_drop, List.length_cons] at h ⊢; omega)]
      exact List.take_append_drop 75 (c :: rest)

theorem chunks75_sizes : ∀ n (l : List Char), l.length ≤ n →
    ∀ ch ∈ chunks75 l, ch.length ≤ 75 ∧ ch ≠ [] := by
  intro n
  induction n with
  | zero =>
    intro l h
    have : l = [] := List.eq_nil_of_length_eq_zero (Nat.le_zero.mp h)
    subst this
    simp [chunks75_nil]
  | succ n ih =>
    intro l h ch hch
    rcases l with _ | ⟨c, rest⟩
    · simp [chunks75_nil] at hch
    · rw [chunks75_cons] at hch
      rcases List.mem_cons.mp hch with hhead | htail
      · subst hhead
        constructor
        · simp [List.length_take]
        · simp
      · have hdrop : rest.drop 74 = (c :: rest).drop 75 := rfl
        exact ih ((c :: rest).drop 75) (by simp only [List.length_drop, List.length_cons] at h ⊢; omega) ch (hdrop ▸ htail)

theorem chunks75_count : ∀ n (l : List Char), l.length ≤ n →
    (chunks75 l).length = (l.length + 74) / 75 := by
  intro n
  induction n with
  | zero =>
    intro l h
    have : l = [] := List.eq_nil_of_length_eq_zero (Nat.le_zero.mp h)
    subst this
    simp [chunks75_nil]
  | succ n ih =>
    intro l h
    rcases l with _ | ⟨c, rest⟩
    · simp [chunks75_nil]
    · rw [chunks75_cons, List.length_cons]
      have hdrop : rest.drop 74 = (c :: rest).drop 75 := rfl
      rw [hdrop, ih ((c :: rest).drop 75) (by simp only [List.length_drop, List.length_cons] at h ⊢; omega)]
      simp only [List.length_drop, List.length_cons]
      omega

theorem buildEvents_ok (t : DateTime) (uuids : ℕ → List Char)
    (items : List (List Char × StudyItem)) :
    ∀ (rs : List ReviewItemN) (i : ℕ), (∀ r ∈ rs, r.review_date ≠ none) →
      ∃ evs, buildEvents t uuids items i rs = Except.ok evs ∧ evs.length = 7 * rs.length := by
  intro rs
  induction rs with
  | nil => intro i h; exact ⟨[], rfl, rfl⟩
  | cons r rs ih =>
    intro i h
    have hr : r.review_date ≠ none := h r (by simp)
    obtain ⟨d, hd⟩ := Option.ne_none_iff_exists'.mp hr
    obtain ⟨evs, hevs, hlen⟩ := ih (i + 1) (fun x hx => h x (by simp [hx]))
    have hblock : eventBlock t (uuids i) items r = Except.ok ["BEGIN:VEVENT".toList,
        fold ("UID:".toList ++ escape (r.item_id ++ '-' :: (uuids i ++ "@jubarte".toList))),
        fold ("DTSTAMP:".toList ++ format_dt t),
        fold ("DTSTART:".toList ++ format_dt d),
        fold ("SUMMARY:".toList ++ escape ("Review: ".toList ++ (match dictGet items r.item_id with
          | some it => it.title
          | none => r.item_id))),
        fold ("DESCRIPTION:".toList ++ escape (match dictGet items r.item_id with
          | some it => it.notes
          | none => [])),
        "END:VEVENT".toList] := by
      simp [eventBlock, format_dtOpt, hd]
    refine ⟨["BEGIN:VEVENT".toList,
        fold ("UID:".toList ++ escape (r.item_id ++ '-' :: (uuids i ++ "@jubarte".toList))),
        fold ("DTSTAMP:".toList ++ format_dt t),
        fold ("DTSTART:".toList ++ format_dt d),
        fold ("SUMMARY:".toList ++ escape ("Review: ".toList ++ (match dictGet items r.item_id with
          | some it => it.title
          | none => r.item_id))),
        fold ("DESCRIPTION:".toList ++ escape (match dictGet items r.item_id with
          | some it => it.notes
          | none => [])),
        "END:VEVENT".toList] ++ evs, ?_, ?_⟩
    · simp only [buildEvents, hblock, hevs]
    · simp only [List.length_append, List.length_cons, hlen, List.length_nil]
      omega

/-- C6: `export` emits one 7-line event block per record, in ascending order
of the records' scheduled dates regardless of input order (the emitted
sequence is a permutation of the input sorted by date key), and a record whose
`item_id` is absent from the items mapping still exports, its summary built
from the raw item id in place of the title and its description empty. -/
theorem export_sorted_and_missing_item_fallback (t : DateTime) (uuids : ℕ → List Char)
    (reviews : List ReviewItemN) (items : List (List Char × StudyItem))
    (hall : ∀ r ∈ reviews, r.review_date ≠ none) :
    (∃ evs, buildLines t uuids reviews items
        = Except.ok (calHeader ++ evs ++ ["END:VCALENDAR".toList]) ∧
      buildEvents t uuids items 0
        (List.insertionSort (fun a b => reviewKey a ≤ reviewKey b) reviews) = Except.ok evs ∧
      evs.length = 7 * reviews.length) ∧
    (List.insertionSort (fun a b => reviewKey a ≤ reviewKey b) reviews).Perm reviews ∧
    (List.insertionSort (fun a b => reviewKey a ≤ reviewKey b) reviews).Pairwise
      (fun a b => reviewKey a ≤ reviewKey b) ∧
    (∀ r ∈ reviews, dictGet items r.item_id = none → ∀ (i : ℕ) (d : DateTime),
      r.review_date = some d →
      eventBlock t (uuids i) items r = Except.ok ["BEGIN:VEVENT".toList,
        fold ("UID:".toList ++ escape (r.item_id ++ '-' :: (uuids i ++ "@jubarte".toList))),
        fold ("DTSTAMP:".toList ++ format_dt t),
        fold ("DTSTART:".toList ++ format_dt d),
        fold ("SUMMARY:".toList ++ escape ("Review: ".toList ++ r.item_id)),
        fold ("DESCRIPTION:".toList ++ escape []),
        "END:VEVENT".toList]) := by
  have hperm := List.perm_insertionSort (fun a b => reviewKey a ≤ reviewKey b) reviews
  refine ⟨?_, hperm, List.sorted_insertionSort _ reviews, ?_⟩
  · have hmem : ∀ r ∈ List.insertionSort (fun a b => reviewKey a ≤ reviewKey b) reviews,
        r.review_date ≠ none := fun r hr => hall r (hperm.mem_iff.mp hr)
    obtain ⟨evs, hevs, hlen⟩ := buildEvents_ok t uuids items _ 0 hmem
    have hany : reviews.any (fun r => r.review_date.isNone) = false := by
      rw [List.any_eq_false]
      intro x hx
      simp only [Option.isNone_iff_eq_none]
      exact hall x hx
    have hsorted : pySortedReviews reviews
        = Except.ok (List.insertionSort (fun a b => reviewKey a ≤ reviewKey b) reviews) := by
      simp [pySortedReviews, hany]
    refine ⟨evs, ?_, hevs, by rw [hlen, hperm.length_eq]⟩
    simp only [buildLines, hsorted, hevs]
  · intro r hr hget i d hd
    simp [eventBlock, format_dtOpt, hd, hget]

theorem forall2_volatile_append {l1 l2 l3 l4 : List (List Char)}
    (h12 : List.Forall₂ volatileRel l1 l2) (h34 : List.Forall₂ volatileRel l3 l4) :
    List.Forall₂ volatileRel (l1 ++ l3) (l2 ++ l4) := by
  induction h12 with
  | nil => simpa using h34
  | cons hab h12x ih => exact List.Forall₂.cons hab ih

theorem buildEvents_forall2 (t1 t2 : DateTime) (u1 u2 : ℕ → List Char)
    (items : List (List Char × StudyItem)) :
    ∀ (rs : List ReviewItemN) (i : ℕ), (∀ r ∈ rs, r.review_date ≠ none) →
      ∃ e1 e2, buildEvents t1 u1 items i rs = Except.ok e1 ∧
        buildEvents t2 u2 items i rs = Except.ok e2 ∧
        List.Forall₂ volatileRel e1 e2 := by
  intro rs
  induction rs with
  | nil => intro i h; exact ⟨[], [], rfl, rfl, List.Forall₂.nil⟩
  | cons r rs ih =>
    intro i h
    have hr : r.review_date ≠ none := h r (by simp)
    obtain ⟨d, hd⟩ := Option.ne_none_iff_exists'.mp hr
    obtain ⟨e1, e2, h1, h2, hrel⟩ := ih (i + 1) (fun x hx => h x (by simp [hx]))
    have hb1 : eventBlock t1 (u1 i) items r = Except.ok ["BEGIN:VEVENT".toList,
        fold ("UID:".toList ++ escape (r.item_id ++ '-' :: (u1 i ++ "@jubarte".toList))),
        fold ("DTSTAMP:".toList ++ format_dt t1),
        fold ("DTSTART:".toList ++ format_dt d),
        fold ("SUMMARY:".toList ++ escape ("Review: ".toList ++ (match dictGet items r.item_id with
          | some it => it.title
          | none => r.item_id))),
        fold ("DESCRIPTION:".toList ++ escape (match dictGet items r.item_id with
          | some it => it.notes
          | none => [])),
        "END:VEVENT".toList] := by
      simp [eventBlock, format_dtOpt, hd]
    have hb2 : eventBlock t2 (u2 i) items r = Except.ok ["BEGIN:VEVENT".toList,
        fold ("UID:".toList ++ escape (r.item_id ++ '-' :: (u2 i ++ "@jubarte".toList))),
        fold ("DTSTAMP:".toList ++ format_dt t2),
        fold ("DTSTART:".toList ++ format_dt d),
        fold ("SUMMARY:".toList ++ escape ("Review: ".toList ++ (match dictGet items r.item_id with
          | some it => it.title
          | none => r.item_id))),
        fold ("DESCRIPTION:".toList ++ escape (match dictGet items r.item_id with
          | some it => it.notes
          | none => [])),
        "END:VEVENT".toList] := by
      simp [eventBlock, format_dtOpt, hd]
    have hbe1 : buildEvents t1 u1 items i (r :: rs) = Except.ok (["BEGIN:VEVENT".toList,
        fold ("UID:".toList ++ escape (r.item_id ++ '-' :: (u1 i ++ "@jubarte".toList))),
        fold ("DTSTAMP:".toList ++ format_dt t1),
        fold ("DTSTART:".toList ++ format_dt d),
        fold ("SUMMARY:".toList ++ escape ("Review: ".toList ++ (match dictGet items r.item_id with
          | some it => it.title
          | none => r.item_id))),
        fold ("DESCRIPTION:".toList ++ escape (match dictGet items r.item_id with
          | some it => it.notes
          | none => [])),
        "END:VEVENT".toList] ++ e1) := by
      simp only [buildEvents, hb1, h1]
    have hbe2 : buildEvents t2 u2 items i (r :: rs) = Except.ok (["BEGIN:VEVENT".toList,
        fold ("UID:".toList ++ escape (r.item_id ++ '-' :: (u2 i ++ "@jubarte".toList))),
        fold ("DTSTAMP:".toList ++ format_dt t2),
        fold ("DTSTART:".toList ++ format_dt d),
        fold ("SUMMARY:".toList ++ escape ("Review: ".toList ++ (match dictGet items r.item_id with
          | some it => it.title
          | none => r.item_id))),
        fold ("DESCRIPTION:".toList ++ escape (match dictGet items r.item_id with
          | some it => it.notes
          | none => [])),
        "END:VEVENT".toList] ++ e2) := by
      simp only [buildEvents, hb2, h2]
    refine ⟨_, _, hbe1, hbe2, ?_⟩
    apply forall2_volatile_append ?_ hrel
    refine List.Forall₂.cons (Or.inl rfl) ?_
    refine List.Forall₂.cons (Or.inr (Or.inl ⟨r.item_id, u1 i, u2 i, rfl, rfl⟩)) ?_
    refine List.Forall₂.cons (Or.inr (Or.inr ⟨t1, t2, rfl, rfl⟩)) ?_
    refine List.Forall₂.cons (Or.inl rfl) ?_
    refine List.Forall₂.cons (Or.inl rfl) ?_
    refine List.Forall₂.cons (Or.inl rfl) ?_
    exact List.Forall₂.cons (Or.inl rfl) List.Forall₂.nil

/-- C8: two runs of `export` on the same records and items mapping, at export
times `t1`, `t2` and with fresh uuid streams `u1`, `u2`, succeed and produce
documents related line for line by `volatileRel`: every line is equal except
each event's `DTSTAMP` line (which carries that run's export time) and the
random component of its `UID` line; `DTSTART`, `SUMMARY`, `DESCRIPTION` and
all structural lines coincide. -/
theorem export_runs_differ_only_in_dtstamp_uid (t1 t2 : DateTime) (u1 u2 : ℕ → List Char)
    (reviews : List ReviewItemN) (items : List (List Char × StudyItem))
    (hall : ∀ r ∈ reviews, r.review_date ≠ none) :
    ∃ l1 l2, buildLines t1 u1 reviews items = Except.ok l1 ∧
      buildLines t2 u2 reviews items = Except.ok l2 ∧
      List.Forall₂ volatileRel l1 l2 := by
  have hperm := List.perm_insertionSort (fun a b => reviewKey a ≤ reviewKey b) reviews
  have hmem : ∀ r ∈ List.insertionSort (fun a b => reviewKey a ≤ reviewKey b) reviews,
      r.review_date ≠ none := fun r hr => hall r (hperm.mem_iff.mp hr)
  obtain ⟨e1, e2, h1, h2, hrel⟩ := buildEvents_forall2 t1 t2 u1 u2 items _ 0 hmem
  have hany : reviews.any (fun r => r.review_date.isNone) = false := by
    rw [List.any_eq_false]
    intro x hx
    simp only [Option.isNone_iff_eq_none]
    exact hall x hx
  have hsorted : pySortedReviews reviews
      = Except.ok (List.insertionSort (fun a b => reviewKey a ≤ reviewKey b) reviews) := by
    simp [pySortedReviews, hany]
  refine ⟨calHeader ++ e1 ++ ["END:VCALENDAR".toList],
    calHeader ++ e2 ++ ["END:VCALENDAR".toList],
    by simp only [buildLines, hsorted, h1], by simp only [buildLines, hsorted, h2], ?_⟩
  refine forall2_volatile_append (forall2_volatile_append ?_ hrel) ?_
  · exact (List.forall₂_same).mpr (fun a _ => Or.inl rfl)
  · exact (List.forall₂_same).mpr (fun a _ => Or.inl rfl)

/-- C5 (amended): if any record passed to `export` has a missing (`None`)
scheduled date, the export raises an error and aborts atomically — no bytes
reach the destination path and no temporary artifact remains; the error is a
`TypeError` (from the sort comparing the missing date) whenever the export has
at least two records, and the `ValueError` of `_format_dt` when it has exactly
one. -/
theorem export_missing_date_aborts (t : DateTime) (uuids : ℕ → List Char)
    (reviews : List ReviewItemN) (items : List (List Char × StudyItem)) (fs : FS)
    (h : ∃ r ∈ reviews, r.review_date = none) :
    (∃ e, (exportFS t uuids reviews items fs).1 = Except.error e) ∧
    (exportFS t uuids reviews items fs).2 = fs ∧
    (2 ≤ reviews.length →
      (exportFS t uuids reviews items fs).1 = Except.error PyErr.typeError) ∧
    (reviews.length = 1 →
      (exportFS t uuids reviews items fs).1 = Except.error PyErr.valueError) := by
  obtain ⟨r, hr, hnone⟩ := h
  have hany : reviews.any (fun x => x.review_date.isNone) = true :=
    List.any_eq_true.mpr ⟨r, hr, by simp [hnone]⟩
  by_cases h2 : 2 ≤ reviews.length
  · have hsort : pySortedReviews reviews = Except.error PyErr.typeError := by
      simp [pySortedReviews, h2, hany]
    have hres : exportFS t uuids reviews items fs = (Except.error PyErr.typeError, fs) := by
      simp [exportFS, buildLines, hsort]
    rw [hres]
    exact ⟨⟨PyErr.typeError, rfl⟩, rfl, fun _ => rfl, fun h1 => absurd h1 (by omega)⟩
  · have hpos : 0 < reviews.length := List.length_pos_of_mem hr
    have hlen1 : reviews.length = 1 := by omega
    obtain ⟨x, hx⟩ := List.length_eq_one.mp hlen1
    subst hx
    have hxr : r = x := by simpa using hr
    subst hxr
    have hsort : pySortedReviews [r] = Except.ok [r] := by
      simp [pySortedReviews, List.insertionSort, List.orderedInsert]
    have hblock : eventBlock t (uuids 0) items r = Except.error PyErr.valueError := by
      simp [eventBlock, format_dtOpt, hnone]
    have hres : exportFS t uuids [r] items fs = (Except.error PyErr.valueError, fs) := by
      simp [exportFS, buildLines, hsort, buildEvents, hblock]
    rw [hres]
    exact ⟨⟨PyErr.valueError, rfl⟩, rfl, fun hc => absurd hc (by simp), fun _ => rfl⟩

/-- The claim "realized as ValueError" fails on a two-record export: the sort
raises `TypeError` before `_format_dt` runs. -/
theorem export_missing_date_typeError_counterexample :
    (exportFS ⟨2025, 1, 1, 0, 0, 0, 0, some 0⟩ (fun _ => [])
        [⟨['a'], none⟩, ⟨['b'], some ⟨2025, 1, 2, 0, 0, 0, 0, some 0⟩⟩] [] ⟨none, 0⟩).1
      = Except.error PyErr.typeError ∧
    PyErr.typeError ≠ PyErr.valueError := by
  constructor
  · rfl
  · decide

/-- C4: folding leaves lines of at most 75 characters unchanged, and splits
every line exceeding 75 characters into consecutive segments (concatenating
back to the original line), each of at most 75 characters, joined by a line
break followed by a single space; a 200-character line yields exactly
ceil(200/75) = 3 segments. In the exporter, folding is applied to each emitted
field line after escaping has been applied to its text, as the emitted event
block shows. -/
theorem fold_short_and_split (line : List Char) :
    (line.length ≤ 75 → fold line = line) ∧
    (75 < line.length →
      fold line = List.intercalate ['\r', '\n', ' '] (chunks75 line) ∧
      (chunks75 line).flatten = line ∧
      (∀ seg ∈ chunks75 line, seg.length ≤ 75 ∧ seg ≠ []) ∧
      (chunks75 line).length = (line.length + 74) / 75) ∧
    (line.length = 200 → (chunks75 line).length = 3) ∧
    (∀ (t : DateTime) (uid : List Char) (items : List (List Char × StudyItem))
        (r : ReviewItemN) (d : DateTime), r.review_date = some d →
      eventBlock t uid items r = Except.ok ["BEGIN:VEVENT".toList,
        fold ("UID:".toList ++ escape (r.item_id ++ '-' :: (uid ++ "@jubarte".toList))),
        fold ("DTSTAMP:".toList ++ format_dt t),
        fold ("DTSTART:".toList ++ format_dt d),
        fold ("SUMMARY:".toList ++ escape ("Review: ".toList ++
          (match dictGet items r.item_id with
           | some it => it.title
           | none => r.item_id))),
        fold ("DESCRIPTION:".toList ++ escape (match dictGet items r.item_id with
           | some it => it.notes
           | none => [])),
        "END:VEVENT".toList]) := by
  refine ⟨fun h => by simp [fold, h], fun h => ?_, fun h => ?_, ?_⟩
  · refine ⟨by simp [fold, Nat.not_le.mpr h], chunks75_flatten line.length line (le_refl _),
      chunks75_sizes line.length line (le_refl _), chunks75_count line.length line (le_refl _)⟩
  · rw [chunks75_count line.length line (le_refl _), h]
  · intro t uid items r d hd
    simp [eventBlock, format_dtOpt, hd]

/-- Witness for C4 at a concrete 200-character line. -/
theorem fold_short_and_split_witness :
    75 < (List.replicate 200 'x').length ∧
    (List.replicate 200 'x').length = 200 ∧
    (chunks75 (List.replicate 200 'x')).length = 3 :=
  ⟨by simp only [List.length_replicate]; omega, by simp only [List.length_replicate],
    (fold_short_and_split (List.replicate 200 'x')).2.2.1
      (by simp only [List.length_replicate])⟩

/-- Witness for C5 (amended) at a concrete single dateless record. -/
theorem export_missing_date_aborts_witness :
    (∃ r ∈ [wNoneReview], r.review_date = none) ∧
    (∃ e, (exportFS wTime wUuids [wNoneReview] [] ⟨none, 0⟩).1 = Except.error e) ∧
    (exportFS wTime wUuids [wNoneReview] [] ⟨none, 0⟩).2 = ⟨none, 0⟩ ∧
    (2 ≤ ([wNoneReview] : List ReviewItemN).length →
      (exportFS wTime wUuids [wNoneReview] [] ⟨none, 0⟩).1 = Except.error PyErr.typeError) ∧
    (([wNoneReview] : List ReviewItemN).length = 1 →
      (exportFS wTime wUuids [wNoneReview] [] ⟨none, 0⟩).1 = Except.error PyErr.valueError) :=
  ⟨⟨wNoneReview, by simp, rfl⟩,
    export_missing_date_aborts wTime wUuids [wNoneReview] [] ⟨none, 0⟩
      ⟨wNoneReview, by simp, rfl⟩⟩

/-- Witness for C6 at a concrete single dated record and empty items map. -/
theorem export_sorted_and_missing_item_fallback_witness :
    (∀ r ∈ [wReview], r.review_date ≠ none) ∧
    ((∃ evs, buildLines wTime wUuids [wReview] []
        = Except.ok (calHeader ++ evs ++ ["END:VCALENDAR".toList]) ∧
      buildEvents wTime wUuids [] 0
        (List.insertionSort (fun a b => reviewKey a ≤ reviewKey b) [wReview]) = Except.ok evs ∧
      evs.length = 7 * ([wReview] : List ReviewItemN).length) ∧
    (List.insertionSort (fun a b => reviewKey a ≤ reviewKey b) [wReview]).Perm [wReview] ∧
    (List.insertionSort (fun a b => reviewKey a ≤ reviewKey b) [wReview]).Pairwise
      (fun a b => reviewKey a ≤ reviewKey b) ∧
    (∀ r ∈ [wReview], dictGet ([] : List (List Char × StudyItem)) r.item_id = none →
      ∀ (i : ℕ) (d : DateTime),
      r.review_date = some d →
      eventBlock wTime (wUuids i) [] r = Except.ok ["BEGIN:VEVENT".toList,
        fold ("UID:".toList ++ escape (r.item_id ++ '-' :: (wUuids i ++ "@jubarte".toList))),
        fold ("DTSTAMP:".toList ++ format_dt wTime),
        fold ("DTSTART:".toList ++ format_dt d),
        fold ("SUMMARY:".toList ++ escape ("Review: ".toList ++ r.item_id)),
        fold ("DESCRIPTION:".toList ++ escape []),
        "END:VEVENT".toList])) :=
  ⟨by simp [wReview],
    export_sorted_and_missing_item_fallback wTime wUuids [wReview] [] (by simp [wReview])⟩

/-- Witness for C8 at two concrete export times and uuid streams. -/
theorem export_runs_differ_only_in_dtstamp_uid_witness :
    (∀ r ∈ [wReview], r.review_date ≠ none) ∧
    (∃ l1 l2, buildLines wTime wUuids [wReview] [] = Except.ok l1 ∧
      buildLines ⟨2026, 1, 1, 0, 0, 0, 0, some 0⟩ (fun _ => ['v']) [wReview] []
        = Except.ok l2 ∧
      List.Forall₂ volatileRel l1 l2) :=
  ⟨by simp [wReview],
    export_runs_differ_only_in_dtstamp_uid wTime ⟨2026, 1, 1, 0, 0, 0, 0, some 0⟩
      wUuids (fun _ => ['v']) [wReview] [] (by simp [wReview])⟩

